import Mathlib

/- Verification of the weekly war-table provisioner (Actions/update_torn_wars.py).

The Python script is embedded shallowly: pure computations (date arithmetic,
duration formatting, status selection, win/loss statistics, row synthesis and
sorting, retention selection) become Lean functions; the Google-Sheets
worksheet is modelled as an explicit grid state with the operations the script
invokes (clear, update of a cell range, delete_rows, resize, row_values), and
the two network collaborators (the per-faction history endpoint and the
worksheet deletion call) are modelled by explicit outcome parameters.

Dates: the script renders timestamps with Python's `datetime` in UTC
(`fromtimestamp(ts, tz=timezone.utc)`, `isoformat()`, `strftime("%Y-%m-%d")`).
That external library is modelled here by the proleptic Gregorian calendar,
computed by iterating a successor-day function from the Unix epoch
1970-01-01; clock-of-day fields are the usual divisions of `ts % 86400`. -/

/-- Gregorian leap-year rule, as implemented by Python's `datetime`. -/
def isLeapYear (y : Nat) : Bool :=
  (y % 4 == 0 && y % 100 != 0) || (y % 400 == 0)

/-- Number of days of month `m` (1..12) in year `y`. -/
def daysInMonth (y m : Nat) : Nat :=
  if m == 2 then (if isLeapYear y then 29 else 28)
  else if m == 4 || m == 6 || m == 9 || m == 11 then 30
  else 31

/-- Successor day of a calendar date `(year, month, day)`. -/
def nextDay : Nat × Nat × Nat → Nat × Nat × Nat
  | (y, m, d) =>
    if d < daysInMonth y m then (y, m, d + 1)
    else if m < 12 then (y, m + 1, 1)
    else (y + 1, 1, 1)

/-- The date `n` days after `ymd`. -/
def dateOfDays : Nat → Nat × Nat × Nat → Nat × Nat × Nat
  | 0, ymd => ymd
  | n + 1, (y, m, d) => dateOfDays n (nextDay (y, m, d))

/-- Calendar date of day number `days` (days since the Unix epoch), i.e. the
date part of Python's `datetime.fromtimestamp(86400 * days, tz=timezone.utc)`. -/
def civilFromDays (days : Nat) : Nat × Nat × Nat := dateOfDays days (1970, 1, 1)

/-- The decimal digit `n` (0..9) as a character. -/
def digitChar (n : Nat) : Char := Char.ofNat (48 + n)

/-- Zero-padded fixed-width decimal rendering: `padNum k n` is the `k`
low-order decimal digits of `n`, most significant first. -/
def padNum : Nat → Nat → List Char
  | 0, _ => []
  | k + 1, n => digitChar (n / 10 ^ k % 10) :: padNum k (n % 10 ^ k)

/-- The characters of `YYYY-MM-DD` for a date triple. -/
def dateChars (ymd : Nat × Nat × Nat) : List Char :=
  padNum 4 ymd.1 ++ '-' :: (padNum 2 ymd.2.1 ++ '-' :: padNum 2 ymd.2.2)

/-- The characters of Python's
`datetime.fromtimestamp(ts, tz=timezone.utc).isoformat()`:
`YYYY-MM-DDTHH:MM:SS+00:00` (integral `ts`, so no microseconds field). -/
def isoChars (ts : Nat) : List Char :=
  dateChars (civilFromDays (ts / 86400)) ++
    'T' :: (padNum 2 (ts % 86400 / 3600) ++
      ':' :: (padNum 2 (ts % 3600 / 60) ++
        ':' :: (padNum 2 (ts % 60) ++ [ '+', '0', '0', ':', '0', '0' ])))

/-- Python's `datetime.fromtimestamp(ts, tz=timezone.utc).isoformat()`. -/
def isoformat (ts : Nat) : String := String.mk (isoChars ts)

/-- Python's `strftime("%Y-%m-%d")` applied to the date of day number `days`. -/
def dateString (days : Nat) : String := String.mk (dateChars (civilFromDays days))

/-- The fixed sheet-name prefix of the script (`SHEET_NAME_PREFIX`). -/
def SHEET_NAME_PREFIX : String := "Torn Wars Data"

/-- The anchor-day computation of `TornWarsUpdater.get_weekly_sheet_name`,
on day numbers (days since the Unix epoch, so day `d` has Python weekday
`(d + 3) % 7` with Monday = 0, Tuesday = 1, ...): if today is Tuesday, today;
if the weekday is past Tuesday, `now + timedelta(days=(8 - weekday) % 7)`;
otherwise (Monday) `now - timedelta(days=1)`. -/
def weekly_anchor_day (d : Nat) : Nat :=
  let w := (d + 3) % 7
  if w = 1 then d
  else if 1 < w then d + (8 - w) % 7
  else d - 1

/-- `TornWarsUpdater.get_weekly_sheet_name`: the fixed prefix, a separator,
and the anchor day formatted `%Y-%m-%d`. -/
def get_weekly_sheet_name (d : Nat) : String :=
  SHEET_NAME_PREFIX ++ " - " ++ dateString (weekly_anchor_day d)

/-- The anchor rule as the specification states it: today when today is the
anchor weekday (Tuesday), otherwise the most recent past Tuesday. -/
def spec_anchor_day (d : Nat) : Nat :=
  let w := (d + 3) % 7
  d - (w + 6) % 7

/- The worksheet model. A Google-Sheets worksheet is a grid with a row and a
column count. Cells are addressed 1-based; `cell` is a total function and
everything outside the current grid reads as the empty string (`readCell`),
which is how the vendor API behaves: shrinking deletes data, growing adds
blank cells. The operations below are the ones the script calls through
`gspread`, with the semantics the specification assigns to the tabular
store (write-range places its rows at the range, growing the grid as
needed; `row_values` returns a row with trailing empty cells trimmed). -/

/-- State of one worksheet. -/
structure Sheet where
  numRows : Nat
  numCols : Nat
  cell : Nat → Nat → String

/-- Cell contents as the API reads them: blank outside the current grid. -/
def readCell (s : Sheet) (r c : Nat) : String :=
  if 1 ≤ r ∧ r ≤ s.numRows ∧ 1 ≤ c ∧ c ≤ s.numCols then s.cell r c else ""

/-- Drop trailing empty cells, as gspread's `row_values` does. -/
def trimRow (row : List String) : List String :=
  (row.reverse.dropWhile (fun c => c == "")).reverse

/-- gspread `row_values(r)`: the cells of row `r`, trailing blanks dropped. -/
def rowValues (s : Sheet) (r : Nat) : List String :=
  trimRow ((List.range s.numCols).map (fun j => readCell s r (j + 1)))

/-- Number of non-blank rows strictly below the header block (rows 5 and on):
the data rows of the weekly table layout. -/
def dataRowCount (s : Sheet) : Nat :=
  ((List.range (s.numRows - 4)).filter
    (fun i => !(rowValues s (5 + i)).isEmpty)).length

/-- gspread `clear()`: blank every cell, keep the grid dimensions. -/
def clearSheet (s : Sheet) : Sheet :=
  { numRows := s.numRows, numCols := s.numCols, cell := fun _ _ => "" }

/-- gspread `resize(rows=r, cols=c)`: set the grid to exactly `r` rows and
`c` columns; surviving cells keep their value, everything else is blank. -/
def resizeSheet (s : Sheet) (r c : Nat) : Sheet :=
  { numRows := r, numCols := c,
    cell := fun r' c' => if r' ≤ r ∧ c' ≤ c then readCell s r' c' else "" }

/-- gspread `delete_rows(a, b)`: remove rows `a..b` inclusive; rows below
shift up. -/
def deleteRows (s : Sheet) (a b : Nat) : Sheet :=
  { numRows := s.numRows - (b - a + 1), numCols := s.numCols,
    cell := fun r c => if r < a then readCell s r c else readCell s (r + (b - a + 1)) c }

/-- Width of the widest row of a written block. -/
def rowsMaxWidth (vals : List (List String)) : Nat :=
  vals.foldr (fun v acc => max v.length acc) 0

/-- gspread `update(values=vals, range_name=...)` with the range starting at
row `startRow`, column A: overlay each given row from column 1 on, leave
other cells alone, grow the grid to fit the written block. -/
def writeRange (s : Sheet) (startRow : Nat) (vals : List (List String)) : Sheet :=
  { numRows := max s.numRows (startRow - 1 + vals.length),
    numCols := max s.numCols (rowsMaxWidth vals),
    cell := fun r c =>
      if startRow ≤ r then (vals.getD (r - startRow) []).getD (c - 1) (readCell s r c)
      else readCell s r c }

/-- The canonical 22-column header list of the script
(`expected_headers` in `get_or_create_weekly_sheet`, `headers` in
`setup_headers_at_row`; the two literals are identical). -/
def expected_headers : List String :=
  ["War ID", "Status", "Start Date", "End Date", "Duration",
   "Target Score", "Faction 1 ID", "Faction 1 Name", "Faction 1 Score",
   "Faction 1 Chain", "Faction 1 Wars Won", "Faction 1 Wars Lost", "Faction 1 Win Rate",
   "Faction 2 ID", "Faction 2 Name", "Faction 2 Score", "Faction 2 Chain",
   "Faction 2 Wars Won", "Faction 2 Wars Lost", "Faction 2 Win Rate",
   "Total Score", "Winner Faction ID"]

/-- `TornWarsUpdater.setup_headers_at_row`: write the canonical header at the
given row (range `A{row}:V{row}`). -/
def setup_headers_at_row (s : Sheet) (r : Nat) : Sheet :=
  writeRange s r [expected_headers]

/-- `TornWarsUpdater.reset_sheet_structure`: clear everything, rewrite the two
metadata lines at A1 and A2, rewrite the header at row 4, resize back to the
fixed 1000 x 22 capacity. `meta1`/`meta2` are the two timestamped note texts. -/
def reset_sheet_structure (meta1 meta2 : String) (s : Sheet) : Sheet :=
  let s1 := clearSheet s
  let s2 := writeRange s1 1 [[meta1]]
  let s3 := writeRange s2 2 [[meta2]]
  let s4 := setup_headers_at_row s3 4
  resizeSheet s4 1000 22

/-- The header check of `get_or_create_weekly_sheet`: reset is triggered when
`len(current_headers) != len(expected_headers) or current_headers != expected_headers`. -/
def headersNeedReset (cur : List String) : Bool :=
  cur.length != expected_headers.length || cur != expected_headers

/-- The existing-sheet branch of `TornWarsUpdater.get_or_create_weekly_sheet`:
read the header row (row 4); if it fails the check, reset the sheet
structure, otherwise leave the sheet untouched. -/
def get_or_create_existing (meta1 meta2 : String) (s : Sheet) : Sheet :=
  if headersNeedReset (rowValues s 4) then reset_sheet_structure meta1 meta2 s else s

/-- `TornWarsUpdater.update_sheet`, for an already prepared list of data rows
`wars`: nothing at all happens for an empty list; otherwise resize up when the
needed `4 + len(wars)` rows exceed the current row count, resize when fewer
than 22 columns are present, delete rows `6..row_count` and resize when the
row count exceeds 5, then write the rows at range `A6:V{5+len(wars)}`. -/
def update_sheet (s : Sheet) (wars : List (List String)) : Sheet :=
  if wars.isEmpty then s
  else
    let totalRowsNeeded := 4 + wars.length
    let currentRows := s.numRows
    let currentCols := s.numCols
    let s1 := if currentRows < totalRowsNeeded then resizeSheet s totalRowsNeeded 22 else s
    let s2 := if currentCols < 22 then resizeSheet s1 totalRowsNeeded 22 else s1
    let lastRow := s2.numRows
    let s3 := if 5 < lastRow then resizeSheet (deleteRows s2 6 lastRow) totalRowsNeeded 22 else s2
    writeRange s3 6 wars

/- War records and row synthesis. A ranked-war record from the provider has a
nested `war` object (start, optional end, target, winner) and a `factions`
mapping with exactly two entries (the script indexes `faction_ids[0]` and
`faction_ids[1]`). Optional fields model the script's `.get(...)` reads;
`Option Nat` values are run through Python truthiness where the script
branches on them (both a missing field and a `0` are falsy). -/

/-- Python truthiness of an optional integer field: `None` and `0` are falsy. -/
def truthyNat : Option Nat → Option Nat
  | none => none
  | some 0 => none
  | some (n + 1) => some (n + 1)

/-- One faction entry of a war's `factions` mapping: the script reads
`name`, `score` and `chain` with `.get`, so each is optional. -/
structure FactionInfo where
  name : Option String
  score : Option Nat
  chain : Option Nat
deriving DecidableEq

/-- One ranked-war record. `stop` models `war['war']['end']` (`end` is a Lean
keyword); `winner` is the provider's integer faction id. `faction1`/`faction2`
are the two entries of the `factions` mapping, id first. -/
structure War where
  start : Nat
  stop : Option Nat
  target : Option Nat
  winner : Option Nat
  faction1 : String × FactionInfo
  faction2 : String × FactionInfo
deriving DecidableEq

/-- Per-faction statistics record returned by
`TornWarsUpdater.calculate_faction_stats`. -/
structure Stats where
  wars_won : Nat
  wars_lost : Nat
  total_wars : Nat
  win_rate : String
deriving DecidableEq

/-- The zeroed fallback statistics of `calculate_faction_stats`. -/
def zeroStats : Stats := ⟨0, 0, 0, "0%"⟩

/-- Python's built-in `round` applied to the exact ratio `num / den`
(`den > 0`): round half to even. `f` is the floor of the ratio and `r2`
twice the numerator of the fractional part, compared against the
denominator to place the fraction relative to one half. -/
def pythonRound (num den : ℤ) : ℤ :=
  let f := num.fdiv den
  let r2 := 2 * (num - f * den)
  if r2 < den then f
  else if den < r2 then f + 1
  else if f % 2 = 0 then f else f + 1

/-- Outcome of one call to the per-faction history endpoint
(`https://api.torn.com/faction/{id}?selections=rankedwars`): a payload (the
`rankedwars` mapping, reduced to war id and recorded `war.winner`, the only
fields `calculate_faction_stats` reads; `[]` models a payload without wars), a
provider-reported error object with its code (code 5 = "Too many requests"),
or a raised exception (network failure, malformed body, timeout). -/
inductive FactionApiResult where
  | payload (rankedwars : List (String × Option Nat))
  | apiError (code : Nat)
  | requestFailed
deriving DecidableEq

/-- `TornWarsUpdater.fetch_faction_history`: a payload is returned as-is; a
response carrying an `error` object returns `None` whether or not the code is
5, and any exception is caught and returns `None`. -/
def fetch_faction_history (r : FactionApiResult) : Option (List (String × Option Nat)) :=
  match r with
  | .payload rankedwars => some rankedwars
  | .apiError code => if code == 5 then none else none
  | .requestFailed => none

/-- The match test of `calculate_faction_stats`:
`if winner_id and str(winner_id) == str(faction_id)` — the recorded winner
must be truthy (present and nonzero) and print equal to the faction id (the
id is a string key of the `factions` mapping, the winner an integer). -/
def winnerMatches (fid : String) (winner : Option Nat) : Bool :=
  match truthyNat winner with
  | some w => toString w == fid
  | none => false

/-- `TornWarsUpdater.calculate_faction_stats` on the result of the history
fetch: a missing result or an empty `rankedwars` mapping yields the zeroed
summary; otherwise every record whose recorded winner matches counts as a win
and every other record as a loss, and the win rate is
`round(wars_won / total_wars * 100)` rendered as a percentage. -/
def calculate_faction_stats (fid : String) (fetched : Option (List (String × Option Nat))) : Stats :=
  match fetched with
  | none => zeroStats
  | some rankedwars =>
    if rankedwars.isEmpty then zeroStats
    else
      let total_wars := rankedwars.length
      let wars_won := (rankedwars.filter (fun p => winnerMatches fid p.2)).length
      let wars_lost := (rankedwars.filter (fun p => !winnerMatches fid p.2)).length
      let win_rate :=
        if 0 < total_wars then
          toString (pythonRound (wars_won * 100) total_wars) ++ "%"
        else "0%"
      ⟨wars_won, wars_lost, total_wars, win_rate⟩

/-- `TornWarsUpdater.format_duration`. The script multiplies the start
timestamp by 1000 (milliseconds) but uses a present end timestamp raw
(seconds); only the no-end fallback `datetime.now().timestamp() * 1000` is in
milliseconds (`nowMs`). Python's `//` and `%` on a positive divisor are
`Int.ediv` and `Int.emod`. -/
def format_duration (startTs : Nat) (endTs : Option Nat) (nowMs : Int) : String :=
  let startTime : Int := (startTs : Int) * 1000
  let endTime : Int := match truthyNat endTs with
    | some e => (e : Int)
    | none => nowMs
  let duration := endTime - startTime
  let days := duration.ediv (1000 * 60 * 60 * 24)
  let hours := (duration.emod (1000 * 60 * 60 * 24)).ediv (1000 * 60 * 60)
  let minutes := (duration.emod (1000 * 60 * 60)).ediv (1000 * 60)
  if 0 < days then toString days ++ "d " ++ toString hours ++ "h " ++ toString minutes ++ "m"
  else if 0 < hours then toString hours ++ "h " ++ toString minutes ++ "m"
  else toString minutes ++ "m"

/-- The status selection of `prepare_wars_data` (lines 362-367): `Preparing`
by default, `Active` when the end timestamp is falsy, `Finished` when the end
timestamp is below `datetime.now().timestamp()` (`now`, epoch seconds). -/
def statusOf (endTs : Option Nat) (now : Nat) : String :=
  match truthyNat endTs with
  | none => "Active"
  | some e => if e < now then "Finished" else "Preparing"

/-- One 22-cell data row of `prepare_wars_data`, columns A..V in the script's
order, for the war keyed `p.1`. Numeric cells are rendered decimally (the
model's cells are strings). `stats` is the per-faction result of
`calculate_faction_stats`, `now` the current epoch second. -/
def warRow (stats : String → Stats) (now : Nat) (p : String × War) : List String :=
  let w := p.2
  let fid1 := w.faction1.1
  let f1 := w.faction1.2
  let fid2 := w.faction2.1
  let f2 := w.faction2.2
  let faction1_score := f1.score.getD 0
  let faction2_score := f2.score.getD 0
  [p.1,
   statusOf w.stop now,
   isoformat w.start,
   (match truthyNat w.stop with | some e => isoformat e | none => ""),
   format_duration w.start w.stop ((now : Int) * 1000),
   toString (w.target.getD 0),
   fid1,
   f1.name.getD "Unknown",
   toString faction1_score,
   toString (f1.chain.getD 0),
   toString (stats fid1).wars_won,
   toString (stats fid1).wars_lost,
   (stats fid1).win_rate,
   fid2,
   f2.name.getD "Unknown",
   toString faction2_score,
   toString (f2.chain.getD 0),
   toString (stats fid2).wars_won,
   toString (stats fid2).wars_lost,
   (stats fid2).win_rate,
   toString (faction1_score + faction2_score),
   (match w.winner with | some n => toString n | none => "")]

/-- Lexicographic comparison of character lists, by code point: Python's `<`
on strings. Written structurally so that it evaluates by kernel reduction. -/
def charListLt : List Char → List Char → Bool
  | [], [] => false
  | [], _ :: _ => true
  | _ :: _, [] => false
  | a :: as, b :: bs => decide (a < b) || (a == b && charListLt as bs)

/-- Python's `<` on strings. -/
def pyStrLt (a b : String) : Bool := charListLt a.data b.data

/-- The comparator of `wars.sort(key=lambda x: x[2], reverse=True)`: a stable
descending sort by the start-date cell (index 2), so row `r1` may precede
`r2` exactly when its key is not smaller. -/
def rowLe (r1 r2 : List String) : Prop :=
  pyStrLt (r1.getD 2 "") (r2.getD 2 "") = false

instance : DecidableRel rowLe := fun _ _ => instDecidableEqBool _ _

/-- `TornWarsUpdater.prepare_wars_data`: build one row per war of the
`rankedwars` mapping in iteration order, then sort by the start-date string
descending. Python's `list.sort` is a stable sort, and every stable sort by
the same total preorder produces the same list, so it is modelled by the
(stable) insertion sort. -/
def prepare_wars_data (stats : String → Stats) (now : Nat) (wars : List (String × War)) : List (List String) :=
  List.insertionSort rowLe (wars.map (warRow stats now))

/-- The same comparator on war records themselves: descending by the rendered
start date of the war. -/
def warLe (a b : String × War) : Prop :=
  pyStrLt (isoformat a.2.start) (isoformat b.2.start) = false

instance : DecidableRel warLe := fun _ _ => instDecidableEqBool _ _

/-- Python's `str.startswith`, written over the character lists so that it
evaluates by kernel reduction. -/
def strStartsWith (s pre : String) : Bool := pre.data.isPrefixOf s.data

/-- Attempt the deletions of `cleanup_old_sheets` in order: `delOk` tells
whether `del_worksheet` succeeds on a title; the first failing call raises,
so later sheets are not attempted. The result carries the successfully
deleted titles, as `Except.error` when a deletion raised. -/
def attemptDeletes (toDelete : List String) (delOk : String → Bool) : Except (List String) (List String) :=
  match toDelete with
  | [] => .ok []
  | t :: ts =>
    if delOk t then
      match attemptDeletes ts delOk with
      | .ok ds => .ok (t :: ds)
      | .error ds => .error (t :: ds)
    else .error []

/-- `TornWarsUpdater.cleanup_old_sheets` over the list of existing worksheet
titles: filter the titles with the fixed prefix; with at most `keepWeeks`
(the script's default is 8) of them return and delete nothing; otherwise sort
by title descending and delete everything past the first `keepWeeks`. The
surrounding `try/except` logs and swallows any raised deletion error, so the
call always returns normally: the result is the deleted titles and whether an
error escaped to the caller (always `false`). Python's `sorted`/`list.sort`
on titles is again modelled by the stable insertion sort, and
`str.startswith` by `strStartsWith` above. -/
def cleanup_old_sheets (titles : List String) (keepWeeks : Nat) (delOk : String → Bool) : List String × Bool :=
  let weekly_sheets := titles.filter (fun t => strStartsWith t SHEET_NAME_PREFIX)
  if weekly_sheets.length ≤ keepWeeks then ([], false)
  else
    let sorted := List.insertionSort (fun a b : String => pyStrLt a b = false) weekly_sheets
    let sheets_to_delete := sorted.drop keepWeeks
    match attemptDeletes sheets_to_delete delOk with
    | .ok ds => (ds, false)
    | .error ds => (ds, false)

/-- Strict lexicographic order on `(year, month, day)` triples: calendar
order of dates. -/
def tripLt (a b : Nat × Nat × Nat) : Prop :=
  a.1 < b.1 ∨ (a.1 = b.1 ∧ (a.2.1 < b.2.1 ∨ (a.2.1 = b.2.1 ∧ a.2.2 < b.2.2)))

/-- Ten weekly table titles (consecutive Tuesdays), in scrambled order, used
to instantiate the retention theorem. -/
def sampleTitles : List String :=
  ["Torn Wars Data - 2025-02-04", "Torn Wars Data - 2025-01-14",
   "Torn Wars Data - 2025-03-11", "Torn Wars Data - 2025-01-28",
   "Torn Wars Data - 2025-02-18", "Torn Wars Data - 2025-01-07",
   "Torn Wars Data - 2025-02-25", "Torn Wars Data - 2025-02-11",
   "Torn Wars Data - 2025-03-04", "Torn Wars Data - 2025-01-21"]

/- Lemmas about the calendar model: the successor day strictly increases the
date, hence day-number order is calendar order; iterating from a valid date
keeps month and day fields in range. -/

theorem tripLt_trans {a b c : Nat × Nat × Nat} (h1 : tripLt a b) (h2 : tripLt b c) :
    tripLt a c := by
  unfold tripLt at h1 h2 ⊢
  omega

theorem nextDay_tripLt (x : Nat × Nat × Nat) : tripLt x (nextDay x) := by
  obtain ⟨y, m, d⟩ := x
  simp only [nextDay, tripLt]
  split_ifs <;> simp

theorem dateOfDays_succ (n : Nat) (x : Nat × Nat × Nat) :
    dateOfDays (n + 1) x = nextDay (dateOfDays n x) := by
  induction n generalizing x with
  | zero =>
    obtain ⟨y, m, d⟩ := x
    rfl
  | succ n ih =>
    obtain ⟨y, m, d⟩ := x
    calc dateOfDays (n + 1 + 1) (y, m, d) = dateOfDays (n + 1) (nextDay (y, m, d)) := rfl
    _ = nextDay (dateOfDays n (nextDay (y, m, d))) := ih _
    _ = nextDay (dateOfDays (n + 1) (y, m, d)) := rfl

theorem civilFromDays_succ (k : Nat) : civilFromDays (k + 1) = nextDay (civilFromDays k) :=
  dateOfDays_succ k _

theorem civilFromDays_tripLt {d1 d2 : Nat} (h : d1 < d2) :
    tripLt (civilFromDays d1) (civilFromDays d2) := by
  induction d2 with
  | zero => omega
  | succ k ih =>
    have hstep : tripLt (civilFromDays k) (civilFromDays (k + 1)) := by
      rw [civilFromDays_succ]
      exact nextDay_tripLt _
    rcases Nat.lt_or_ge d1 k with hk | hk
    · exact tripLt_trans (ih hk) hstep
    · have : d1 = k := by omega
      subst this
      exact hstep

theorem daysInMonth_le (y m : Nat) : daysInMonth y m ≤ 31 := by
  unfold daysInMonth
  split_ifs <;> omega

theorem civilFromDays_valid (n : Nat) :
    1 ≤ (civilFromDays n).2.1 ∧ (civilFromDays n).2.1 ≤ 12 ∧
      1 ≤ (civilFromDays n).2.2 ∧ (civilFromDays n).2.2 ≤ 31 := by
  induction n with
  | zero => decide
  | succ k ih =>
    rw [civilFromDays_succ]
    rcases hck : civilFromDays k with ⟨y, m, d⟩
    rw [hck] at ih
    have hd := daysInMonth_le y m
    simp only at ih
    simp only [nextDay]
    split_ifs with h1 h2 <;> simp <;> omega

/- String-order machinery: `charListLt` agrees with the lexicographic order
`List.Lex (· < ·)` on character lists, zero-padded fixed-width decimal
rendering is strictly monotone, and the rendered ISO strings are therefore
strictly monotone in the timestamp (for dates within the four-digit years the
library can represent). -/

theorem charListLt_iff : ∀ l1 l2 : List Char,
    charListLt l1 l2 = true ↔ List.Lex (· < ·) l1 l2 := by
  intro l1
  induction l1 with
  | nil =>
    intro l2
    cases l2 with
    | nil =>
      constructor
      · intro h
        simp [charListLt] at h
      · intro h
        exact absurd h (List.Lex.not_nil_right _ _)
    | cons b bs =>
      constructor
      · intro _
        exact List.Lex.nil
      · intro _
        rfl
  | cons a as ih =>
    intro l2
    cases l2 with
    | nil =>
      constructor
      · intro h
        simp [charListLt] at h
      · intro h
        exact absurd h (List.Lex.not_nil_right _ _)
    | cons b bs =>
      simp only [charListLt, Bool.or_eq_true, Bool.and_eq_true, decide_eq_true_eq, beq_iff_eq]
      constructor
      · rintro (hab | ⟨hab, h⟩)
        · exact List.Lex.rel hab
        · subst hab
          exact List.Lex.cons ((ih bs).1 h)
      · intro h
        cases h with
        | rel hab => exact Or.inl hab
        | cons h => exact Or.inr ⟨rfl, (ih bs).2 h⟩

theorem lex_append_of_length_eq :
    ∀ {as bs : List Char}, as.length = bs.length → List.Lex (· < ·) as bs →
      ∀ cs ds : List Char, List.Lex (· < ·) (as ++ cs) (bs ++ ds) := by
  intro as bs hlen h
  induction h with
  | nil => simp at hlen
  | rel hab =>
    intro cs ds
    exact List.Lex.rel hab
  | cons h ih =>
    intro cs ds
    exact List.Lex.cons (ih (by simpa using hlen) cs ds)

theorem padNum_length : ∀ k n : Nat, (padNum k n).length = k := by
  intro k
  induction k with
  | zero => intro n; rfl
  | succ k ih => intro n; simp [padNum, ih]

theorem digitChar_lt : ∀ a, a < 10 → ∀ b, b < 10 → a < b → digitChar a < digitChar b := by
  decide

theorem padNum_lex : ∀ {k a b : Nat}, a < b → b < 10 ^ k →
    List.Lex (· < ·) (padNum k a) (padNum k b) := by
  intro k
  induction k with
  | zero =>
    intro a b hab hb
    omega
  | succ k ih =>
    intro a b hab hb
    have hpos : 0 < 10 ^ k := Nat.pos_pow_of_pos k (by omega)
    have hb10 : b / 10 ^ k < 10 := by
      rw [Nat.div_lt_iff_lt_mul hpos]
      calc b < 10 ^ (k + 1) := hb
      _ = 10 * 10 ^ k := by ring
    have ha10 : a / 10 ^ k < 10 := by
      rw [Nat.div_lt_iff_lt_mul hpos]
      calc a < 10 ^ (k + 1) := by omega
      _ = 10 * 10 ^ k := by ring
    have hdiv : a / 10 ^ k ≤ b / 10 ^ k := Nat.div_le_div_right (le_of_lt hab)
    simp only [padNum]
    rw [Nat.mod_eq_of_lt ha10, Nat.mod_eq_of_lt hb10]
    rcases Nat.lt_or_ge (a / 10 ^ k) (b / 10 ^ k) with hlt | hge
    · exact List.Lex.rel (digitChar_lt _ ha10 _ hb10 hlt)
    · have heq : a / 10 ^ k = b / 10 ^ k := le_antisymm hdiv hge
      rw [heq]
      apply List.Lex.cons
      apply ih
      · have h1 := Nat.div_add_mod a (10 ^ k)
        have h2 := Nat.div_add_mod b (10 ^ k)
        rw [heq] at h1
        omega
      · exact Nat.mod_lt _ hpos

theorem dateChars_lex {t1 t2 : Nat × Nat × Nat} (h : tripLt t1 t2) (hy : t2.1 ≤ 9999)
    (hm : t2.2.1 ≤ 99) (hd : t2.2.2 ≤ 99) :
    List.Lex (· < ·) (dateChars t1) (dateChars t2) := by
  obtain ⟨y1, m1, d1⟩ := t1
  obtain ⟨y2, m2, d2⟩ := t2
  simp only [tripLt] at h
  simp only at hy hm hd
  unfold dateChars
  simp only
  rcases h with hy12 | ⟨hyeq, h⟩
  · exact lex_append_of_length_eq (by simp [padNum_length])
      (padNum_lex hy12 (by omega)) _ _
  · subst hyeq
    rcases h with hm12 | ⟨hmeq, hd12⟩
    · apply List.Lex.append_left
      apply List.Lex.cons
      exact lex_append_of_length_eq (by simp [padNum_length])
        (padNum_lex hm12 (by omega)) _ _
    · subst hmeq
      apply List.Lex.append_left
      apply List.Lex.cons
      apply List.Lex.append_left
      apply List.Lex.cons
      exact padNum_lex hd12 (by omega)

theorem tsTimeSplit {ts1 ts2 : Nat} (heq : ts1 / 86400 = ts2 / 86400) (h : ts1 < ts2) :
    ts1 % 86400 / 3600 < ts2 % 86400 / 3600 ∨
      (ts1 % 86400 / 3600 = ts2 % 86400 / 3600 ∧
        (ts1 % 3600 / 60 < ts2 % 3600 / 60 ∨
          (ts1 % 3600 / 60 = ts2 % 3600 / 60 ∧ ts1 % 60 < ts2 % 60))) := by
  omega

theorem isoChars_lex {ts1 ts2 : Nat} (h : ts1 < ts2)
    (hy : (civilFromDays (ts2 / 86400)).1 ≤ 9999) :
    List.Lex (· < ·) (isoChars ts1) (isoChars ts2) := by
  unfold isoChars
  rcases Nat.lt_or_ge (ts1 / 86400) (ts2 / 86400) with hdays | hdays
  · have htrip := civilFromDays_tripLt hdays
    have hv2 := civilFromDays_valid (ts2 / 86400)
    exact lex_append_of_length_eq (by simp [dateChars, padNum_length])
      (dateChars_lex htrip hy (by omega) (by omega)) _ _
  · have hdeq : ts1 / 86400 = ts2 / 86400 :=
      Nat.le_antisymm (Nat.div_le_div_right (le_of_lt h)) hdays
    rw [hdeq]
    apply List.Lex.append_left
    apply List.Lex.cons
    rcases tsTimeSplit hdeq h with hh | ⟨hheq, hrest⟩
    · exact lex_append_of_length_eq (by simp [padNum_length])
        (padNum_lex hh (by omega)) _ _
    · rw [hheq]
      apply List.Lex.append_left
      apply List.Lex.cons
      rcases hrest with hmi | ⟨hmieq, hss⟩
      · exact lex_append_of_length_eq (by simp [padNum_length])
          (padNum_lex hmi (by omega)) _ _
      · rw [hmieq]
        apply List.Lex.append_left
        apply List.Lex.cons
        exact lex_append_of_length_eq (by simp [padNum_length])
          (padNum_lex hss (by omega)) _ _

theorem pyStrLt_isoformat {ts1 ts2 : Nat} (h : ts1 < ts2)
    (hy : (civilFromDays (ts2 / 86400)).1 ≤ 9999) :
    pyStrLt (isoformat ts1) (isoformat ts2) = true := by
  unfold pyStrLt isoformat
  exact (charListLt_iff _ _).2 (isoChars_lex h hy)


/- Claim C1. The spec claims the sheet date is today when today is Tuesday
and otherwise the most recent PAST Tuesday (backward normalization, never
forward). The code agrees on Tuesday, but for Wednesday..Sunday it jumps
FORWARD to the next Tuesday, and on Monday it subtracts a single day and
lands on a Sunday. Day 20 (1970-01-21, a Wednesday) is a counterexample:
the code anchors at day 26 (1970-01-27, the *future* Tuesday), while the
most recent past Tuesday is day 19 (1970-01-20). -/

/-- C1 counterexample: on Wednesday 1970-01-21 (day 20) the script names the
sheet after the future Tuesday 1970-01-27, not the most recent past Tuesday
1970-01-20 as the claim requires; the anchor lies strictly in the future. -/
theorem C1_counterexample :
    get_weekly_sheet_name 20 = "Torn Wars Data - 1970-01-27" ∧
      weekly_anchor_day 20 = 26 ∧
      spec_anchor_day 20 = 19 ∧
      weekly_anchor_day 20 ≠ spec_anchor_day 20 ∧
      20 < weekly_anchor_day 20 := by
  refine ⟨by decide, by decide, by decide, by decide, by decide⟩

/-- C1 amended: the weekly table name is the fixed prefix plus the anchor
date, where the anchor is today when today is Tuesday (weekday
`(d + 3) % 7 = 1`), the NEXT (future) Tuesday when today is
Wednesday..Sunday, and the previous day (a Sunday, not a Tuesday) when today
is Monday. -/
theorem C1_amended (d : Nat) :
    get_weekly_sheet_name d = SHEET_NAME_PREFIX ++ " - " ++ dateString (weekly_anchor_day d) ∧
      ((d + 3) % 7 = 1 → weekly_anchor_day d = d) ∧
      (2 ≤ (d + 3) % 7 →
        weekly_anchor_day d = d + (8 - (d + 3) % 7) % 7 ∧
          d < weekly_anchor_day d ∧ (weekly_anchor_day d + 3) % 7 = 1) ∧
      ((d + 3) % 7 = 0 →
        weekly_anchor_day d = d - 1 ∧ (weekly_anchor_day d + 3) % 7 = 6) := by
  refine ⟨rfl, ?_, ?_, ?_⟩ <;>
    · intro h
      simp only [weekly_anchor_day]
      split_ifs <;> omega

/-- C1 amended, witnessed at day 20, a Wednesday: the anchor is day 26, six
days in the future, and is a Tuesday. -/
theorem C1_amended_witness :
    weekly_anchor_day 20 = 20 + (8 - (20 + 3) % 7) % 7 ∧
      20 < weekly_anchor_day 20 ∧ (weekly_anchor_day 20 + 3) % 7 = 1 :=
  (C1_amended 20).2.2.1 (by decide)

/- Claim C5. The claim describes the intended duration `(end-or-now - start)`
in one unit. The code multiplies the start timestamp by 1000 but uses a
present end timestamp raw, so for every finished war it subtracts
milliseconds from seconds; the same script treats `war['war']['end']` as
seconds at line 345. A 90-minute war therefore formats as "12h 0m", not
"1h 30m": the spec is the evident intent and the missing `* 1000` a slip. -/

/-- C5 failing input: a war starting at 1000000000 s and ending 90 minutes
later at 1000005400 s formats as "12h 0m" (for any current time, since the
end is present), where the claim requires "1h 30m". -/
theorem C5_failing_input (nowMs : Int) :
    format_duration 1000000000 (some 1000005400) nowMs = "12h 0m" ∧
      "12h 0m" ≠ "1h 30m" := by
  exact ⟨rfl, by decide⟩

/- Claim C6: status selection. "No end timestamp" is Python truthiness on
`war['war'].get('end')`, i.e. a missing field or the provider's `0`. -/

/-- C6: a war with a falsy end timestamp is "Active"; a truthy end timestamp
in the past gives "Finished"; a truthy end timestamp in the future gives
"Preparing". -/
theorem C6_status (endTs : Option Nat) (now : Nat) :
    (truthyNat endTs = none → statusOf endTs now = "Active") ∧
      (∀ e, truthyNat endTs = some e → e < now → statusOf endTs now = "Finished") ∧
      (∀ e, truthyNat endTs = some e → now < e → statusOf endTs now = "Preparing") := by
  refine ⟨?_, ?_, ?_⟩
  · intro h
    simp [statusOf, h]
  · intro e he hlt
    simp [statusOf, he, if_pos hlt]
  · intro e he hgt
    simp only [statusOf, he]
    rw [if_neg (by omega)]

/-- C6 witnessed: no end, end 3 before now 5, end 9 after now 5. -/
theorem C6_status_witness :
    statusOf none 5 = "Active" ∧ statusOf (some 3) 5 = "Finished" ∧
      statusOf (some 9) 5 = "Preparing" :=
  ⟨(C6_status none 5).1 rfl, (C6_status (some 3) 5).2.1 3 rfl (by decide),
    (C6_status (some 9) 5).2.2 9 rfl (by decide)⟩

/- Claim C9: per-faction history fetches that fail in any way (provider
error object of any code, including the rate-limit code 5, or a raised
exception), or that return no data, produce the zeroed summary. The model's
`fetch_faction_history` and `calculate_faction_stats` are total functions,
so no error can propagate to the caller. -/

/-- C9: every non-payload outcome of the history fetch, and every payload
without wars, yields the zeroed statistics record. -/
theorem C9_fetch_failure_zeroed (fid : String) :
    (∀ code, calculate_faction_stats fid
        (fetch_faction_history (FactionApiResult.apiError code)) = zeroStats) ∧
      calculate_faction_stats fid
        (fetch_faction_history FactionApiResult.requestFailed) = zeroStats ∧
      calculate_faction_stats fid none = zeroStats ∧
      calculate_faction_stats fid (some []) = zeroStats := by
  refine ⟨?_, rfl, rfl, rfl⟩
  intro code
  have h : fetch_faction_history (FactionApiResult.apiError code) = none := by
    simp [fetch_faction_history]
  rw [h]
  rfl

theorem filter_length_partition {α : Type} (p : α → Bool) (l : List α) :
    (l.filter p).length + (l.filter (fun a => !p a)).length = l.length := by
  induction l with
  | nil => rfl
  | cons a t ih => cases hpa : p a <;> simp [List.filter, hpa] <;> omega

/- Claims C7 and C10: win/loss statistics over a faction's own history. -/

/-- C10: for a non-empty history, wins and losses partition the records:
`wars_won + wars_lost = total_wars`, the total is the record count, and the
losses are exactly the records whose recorded winner is missing, zero, or
different from the faction (draws and unfinished wars included). -/
theorem C10_win_loss_partition (fid : String) (rw : List (String × Option Nat)) (h : rw ≠ []) :
    (calculate_faction_stats fid (some rw)).wars_won
          + (calculate_faction_stats fid (some rw)).wars_lost
        = (calculate_faction_stats fid (some rw)).total_wars ∧
      (calculate_faction_stats fid (some rw)).total_wars = rw.length ∧
      (calculate_faction_stats fid (some rw)).wars_lost
        = (rw.filter (fun p => !winnerMatches fid p.2)).length := by
  simp only [calculate_faction_stats]
  rw [if_neg (by simpa using h)]
  refine ⟨?_, rfl, rfl⟩
  exact filter_length_partition (fun p => winnerMatches fid p.2) rw

/-- C10 witnessed on a four-war history with three wins for faction 77:
3 + 1 = 4, and the one loss is the war won by faction 5. -/
theorem C10_witness :
    (calculate_faction_stats "77"
          (some [("1", some 77), ("2", some 77), ("3", some 5), ("4", some 77)])).wars_won
          + (calculate_faction_stats "77"
          (some [("1", some 77), ("2", some 77), ("3", some 5), ("4", some 77)])).wars_lost
        = (calculate_faction_stats "77"
          (some [("1", some 77), ("2", some 77), ("3", some 5), ("4", some 77)])).total_wars ∧
      (calculate_faction_stats "77"
          (some [("1", some 77), ("2", some 77), ("3", some 5), ("4", some 77)])).total_wars
        = [("1", some 77), ("2", some 77), ("3", some 5), ("4", some 77)].length ∧
      (calculate_faction_stats "77"
          (some [("1", some 77), ("2", some 77), ("3", some 5), ("4", some 77)])).wars_lost
        = ([("1", some 77), ("2", some 77), ("3", some 5), ("4", some 77)].filter
            (fun p => !winnerMatches "77" p.2)).length :=
  C10_win_loss_partition "77" [("1", some 77), ("2", some 77), ("3", some 5), ("4", some 77)]
    (by decide)

/-- C7: for a non-empty history the win count is the number of records whose
recorded winner matches the faction, and the win rate is
`round(wars_won / total_wars * 100)` (Python rounding, computed on the exact
ratio) rendered as an integer percentage; with no usable history (a failed
fetch or an empty mapping) the win rate is "0%". -/
theorem C7_win_rate (fid : String) (rw : List (String × Option Nat)) (h : rw ≠ []) :
    (calculate_faction_stats fid (some rw)).wars_won
        = (rw.filter (fun p => winnerMatches fid p.2)).length ∧
      (calculate_faction_stats fid (some rw)).win_rate
        = toString (pythonRound ((rw.filter (fun p => winnerMatches fid p.2)).length * 100)
            rw.length) ++ "%" ∧
      (calculate_faction_stats fid none).win_rate = "0%" ∧
      (calculate_faction_stats fid (some [])).win_rate = "0%" := by
  simp only [calculate_faction_stats]
  rw [if_neg (by simpa using h)]
  refine ⟨rfl, ?_, rfl, rfl⟩
  simp only
  rw [if_pos (by simpa using List.length_pos.2 h)]

/-- C7 witnessed on the same four-war history: 3 wins of 4 total render as
exactly "75%". -/
theorem C7_witness :
    calculate_faction_stats "77"
        (some [("1", some 77), ("2", some 77), ("3", some 5), ("4", some 77)])
        = ⟨3, 1, 4, "75%"⟩ ∧
      (calculate_faction_stats "77"
          (some [("1", some 77), ("2", some 77), ("3", some 5), ("4", some 77)])).win_rate
        = toString (pythonRound
            (([("1", some 77), ("2", some 77), ("3", some 5), ("4", some 77)].filter
              (fun p => winnerMatches "77" p.2)).length * 100)
            [("1", some 77), ("2", some 77), ("3", some 5), ("4", some 77)].length) ++ "%" :=
  ⟨by decide,
    (C7_win_rate "77" [("1", some 77), ("2", some 77), ("3", some 5), ("4", some 77)]
      (by decide)).2.1⟩

/- Claim C8: retention. -/

theorem attemptDeletes_all_ok (l : List String) (delOk : String → Bool)
    (h : ∀ t ∈ l, delOk t = true) : attemptDeletes l delOk = .ok l := by
  induction l with
  | nil => rfl
  | cons t ts ih =>
    simp only [attemptDeletes]
    rw [if_pos (h t (by simp)), ih (fun x hx => h x (by simp [hx]))]

/-- C8: with at most `keepWeeks` prefixed titles nothing is deleted; with
more, and all deletions succeeding, exactly the titles past the first
`keepWeeks` of the descending name sort are deleted (their number being the
excess over `keepWeeks`); and the call never reports failure to the caller,
whatever the deletion outcomes. -/
theorem C8_retention (titles : List String) (keepWeeks : Nat) (delOk : String → Bool) :
    ((titles.filter (fun t => strStartsWith t SHEET_NAME_PREFIX)).length ≤ keepWeeks →
        cleanup_old_sheets titles keepWeeks delOk = ([], false)) ∧
      (keepWeeks < (titles.filter (fun t => strStartsWith t SHEET_NAME_PREFIX)).length →
        (∀ t, delOk t = true) →
        (cleanup_old_sheets titles keepWeeks delOk).1
            = (List.insertionSort (fun a b : String => pyStrLt a b = false)
                (titles.filter (fun t => strStartsWith t SHEET_NAME_PREFIX))).drop keepWeeks ∧
          (cleanup_old_sheets titles keepWeeks delOk).1.length
            = (titles.filter (fun t => strStartsWith t SHEET_NAME_PREFIX)).length - keepWeeks) ∧
      (cleanup_old_sheets titles keepWeeks delOk).2 = false := by
  refine ⟨?_, ?_, ?_⟩
  · intro h
    simp only [cleanup_old_sheets]
    rw [if_pos h]
  · intro h hok
    simp only [cleanup_old_sheets]
    rw [if_neg (by omega), attemptDeletes_all_ok _ _ (fun t _ => hok t)]
    refine ⟨rfl, ?_⟩
    simp only [List.length_drop]
    rw [(List.perm_insertionSort _ _).length_eq]
  · simp only [cleanup_old_sheets]
    split
    · rfl
    · split <;> rfl

/-- C8 witnessed on ten scrambled weekly titles with the default keep count
8 and all deletions succeeding: exactly the two oldest tables (by the date
embedded in the name) are deleted, newest-first, and no failure is reported. -/
theorem C8_retention_witness :
    (cleanup_old_sheets sampleTitles 8 (fun _ => true)).1
        = (List.insertionSort (fun a b : String => pyStrLt a b = false)
            (sampleTitles.filter (fun t => strStartsWith t SHEET_NAME_PREFIX))).drop 8 ∧
      (cleanup_old_sheets sampleTitles 8 (fun _ => true)).1.length
        = (sampleTitles.filter (fun t => strStartsWith t SHEET_NAME_PREFIX)).length - 8 ∧
      (cleanup_old_sheets sampleTitles 8 (fun _ => true)).2 = false ∧
      (cleanup_old_sheets sampleTitles 8 (fun _ => true)).1
        = ["Torn Wars Data - 2025-01-14", "Torn Wars Data - 2025-01-07"] :=
  ⟨((C8_retention sampleTitles 8 (fun _ => true)).2.1 (by decide) (fun _ => rfl)).1,
    ((C8_retention sampleTitles 8 (fun _ => true)).2.1 (by decide) (fun _ => rfl)).2,
    (C8_retention sampleTitles 8 (fun _ => true)).2.2,
    by decide⟩

/- Claim C4: row order after `prepare_wars_data`. The comparator facts below
make the descending stable sort by the rendered start date a sort by the
start timestamp itself. -/

theorem charListLt_iff_lt (l1 l2 : List Char) : charListLt l1 l2 = true ↔ l1 < l2 :=
  (charListLt_iff l1 l2).trans Iff.rfl

theorem pyStrLt_false_trans {a b c : String} (h1 : pyStrLt a b = false)
    (h2 : pyStrLt b c = false) : pyStrLt a c = false := by
  unfold pyStrLt at h1 h2 ⊢
  by_contra hac
  simp only [ne_eq, Bool.not_eq_false] at hac
  have lac := (charListLt_iff_lt _ _).1 hac
  rcases lt_trichotomy a.data b.data with hl | he | hl
  · rw [(charListLt_iff_lt _ _).2 hl] at h1
    exact Bool.true_eq_false.mp h1
  · rw [he] at lac
    rw [(charListLt_iff_lt _ _).2 lac] at h2
    exact Bool.true_eq_false.mp h2
  · have lbc : b.data < c.data := lt_trans hl lac
    rw [(charListLt_iff_lt _ _).2 lbc] at h2
    exact Bool.true_eq_false.mp h2

theorem pyStrLt_total (a b : String) : pyStrLt a b = false ∨ pyStrLt b a = false := by
  by_contra h
  push_neg at h
  obtain ⟨h1, h2⟩ := h
  simp only [ne_eq, Bool.not_eq_false] at h1 h2
  exact lt_asymm ((charListLt_iff_lt _ _).1 h1) ((charListLt_iff_lt _ _).1 h2)

theorem orderedInsert_map {α β : Type} (f : α → β) (r : β → β → Prop) (s : α → α → Prop)
    [DecidableRel r] [DecidableRel s] (hc : ∀ a b, s a b ↔ r (f a) (f b)) (a : α) :
    ∀ l : List α, List.orderedInsert r (f a) (l.map f) = (List.orderedInsert s a l).map f := by
  intro l
  induction l with
  | nil => rfl
  | cons b t ih =>
    simp only [List.map, List.orderedInsert]
    by_cases hab : s a b
    · rw [if_pos ((hc a b).1 hab), if_pos hab]
      rfl
    · rw [if_neg (fun hr => hab ((hc a b).2 hr)), if_neg hab]
      simp [ih]

theorem insertionSort_map {α β : Type} (f : α → β) (r : β → β → Prop) (s : α → α → Prop)
    [DecidableRel r] [DecidableRel s] (hc : ∀ a b, s a b ↔ r (f a) (f b)) :
    ∀ l : List α, List.insertionSort r (l.map f) = (List.insertionSort s l).map f := by
  intro l
  induction l with
  | nil => rfl
  | cons a t ih =>
    simp only [List.map, List.insertionSort, ih]
    exact orderedInsert_map f r s hc a _

theorem warRow_getD2 (stats : String → Stats) (now : Nat) (p : String × War) :
    (warRow stats now p).getD 2 "" = isoformat p.2.start := rfl

theorem warLe_iff_rowLe (stats : String → Stats) (now : Nat) (a b : String × War) :
    warLe a b ↔ rowLe (warRow stats now a) (warRow stats now b) := by
  unfold warLe rowLe
  rw [warRow_getD2, warRow_getD2]

/-- C4: the rows written to the table are the war rows reordered by a
permutation of the input wars that is sorted by start timestamp descending
(most recent first). The hypothesis confines start dates to the four-digit
years Python's `datetime` can represent at all (`fromtimestamp` raises
beyond year 9999). -/
theorem C4_rows_sorted_desc (stats : String → Stats) (now : Nat) (wars : List (String × War))
    (hy : ∀ p ∈ wars, (civilFromDays (p.2.start / 86400)).1 ≤ 9999) :
    ∃ ws : List (String × War),
      ws.Perm wars ∧
        prepare_wars_data stats now wars = ws.map (warRow stats now) ∧
        ws.Pairwise (fun a b => b.2.start ≤ a.2.start) := by
  refine ⟨List.insertionSort warLe wars, List.perm_insertionSort _ _, ?_, ?_⟩
  · unfold prepare_wars_data
    exact insertionSort_map (warRow stats now) rowLe warLe (warLe_iff_rowLe stats now) wars
  · haveI : IsTotal (String × War) warLe := ⟨fun a b => pyStrLt_total _ _⟩
    haveI : IsTrans (String × War) warLe := ⟨fun _ _ _ => pyStrLt_false_trans⟩
    have hs := List.sorted_insertionSort warLe wars
    have hmem : ∀ p ∈ List.insertionSort warLe wars, p ∈ wars :=
      fun p hp => (List.perm_insertionSort warLe wars).mem_iff.1 hp
    refine List.Pairwise.imp_of_mem ?_ hs
    intro a b ha hb hab
    by_contra hlt
    push_neg at hlt
    have htrue := pyStrLt_isoformat hlt (hy b (hmem b hb))
    unfold warLe at hab
    rw [hab] at htrue
    exact Bool.false_ne_true htrue

/-- C4 witnessed on two wars given in ascending start order (100 s and
7000 s): the prepared rows are the rows of the reversed, descending-sorted
war list. -/
theorem C4_rows_sorted_desc_witness :
    ∃ ws : List (String × War),
      ws.Perm [("1", ⟨100, some 200, none, none, ("7", ⟨none, none, none⟩), ("8", ⟨none, none, none⟩)⟩),
          ("2", ⟨7000, none, none, none, ("7", ⟨none, none, none⟩), ("8", ⟨none, none, none⟩)⟩)] ∧
        prepare_wars_data (fun _ => zeroStats) 200000
            [("1", ⟨100, some 200, none, none, ("7", ⟨none, none, none⟩), ("8", ⟨none, none, none⟩)⟩),
             ("2", ⟨7000, none, none, none, ("7", ⟨none, none, none⟩), ("8", ⟨none, none, none⟩)⟩)]
          = ws.map (warRow (fun _ => zeroStats) 200000) ∧
        ws.Pairwise (fun a b => b.2.start ≤ a.2.start) :=
  C4_rows_sorted_desc (fun _ => zeroStats) 200000
    [("1", ⟨100, some 200, none, none, ("7", ⟨none, none, none⟩), ("8", ⟨none, none, none⟩)⟩),
     ("2", ⟨7000, none, none, none, ("7", ⟨none, none, none⟩), ("8", ⟨none, none, none⟩)⟩)]
    (by decide)

/- Claim C2: header validation and repair of the existing weekly sheet. -/

theorem readCell_resizeSheet (s : Sheet) (r c r' c' : Nat) :
    readCell (resizeSheet s r c) r' c'
      = if 1 ≤ r' ∧ r' ≤ r ∧ 1 ≤ c' ∧ c' ≤ c then readCell s r' c' else "" := by
  simp only [readCell, resizeSheet]
  split_ifs <;> first | rfl | omega

theorem readCell_clearSheet (s : Sheet) (r c : Nat) : readCell (clearSheet s) r c = "" := by
  simp only [readCell, clearSheet]
  split_ifs <;> rfl

theorem readCell_writeRange (s : Sheet) (sr : Nat) (vals : List (List String)) (r c : Nat) :
    readCell (writeRange s sr vals) r c
      = if 1 ≤ r ∧ r ≤ max s.numRows (sr - 1 + vals.length) ∧ 1 ≤ c
            ∧ c ≤ max s.numCols (rowsMaxWidth vals) then
          (if sr ≤ r then (vals.getD (r - sr) []).getD (c - 1) (readCell s r c)
            else readCell s r c)
        else "" := rfl

theorem readCell_writeRange_past (s : Sheet) (sr : Nat) (vals : List (List String)) (r c : Nat)
    (h : sr + vals.length ≤ r) (hbase : readCell s r c = "") :
    readCell (writeRange s sr vals) r c = "" := by
  rw [readCell_writeRange]
  split_ifs with hg hsr
  · rw [List.getD_eq_default _ _ (by omega : vals.length ≤ r - sr), hbase]
    rfl
  · exact hbase
  · rfl

theorem rowValues_blank (s : Sheet) (r : Nat) (h : ∀ c, readCell s r c = "") :
    rowValues s r = [] := by
  unfold rowValues
  rw [List.map_congr_left (fun j _ => h (j + 1) : ∀ j ∈ List.range s.numCols,
    readCell s r (j + 1) = (fun _ => "") j)]
  rw [show (List.range s.numCols).map (fun _ : Nat => "") = List.replicate s.numCols "" by
    simp [List.map_const']]
  unfold trimRow
  rw [List.reverse_replicate]
  rw [List.dropWhile_eq_nil_iff.2 (fun x hx => by
    rw [List.eq_of_mem_replicate hx]
    rfl)]
  rfl

theorem reset_sheet_structure_def (m1 m2 : String) (s : Sheet) :
    reset_sheet_structure m1 m2 s
      = resizeSheet (writeRange (writeRange (writeRange (clearSheet s) 1 [[m1]]) 2 [[m2]])
          4 [expected_headers]) 1000 22 := rfl

theorem reset_readCell_header (m1 m2 : String) (s : Sheet) (c : Nat)
    (h1 : 1 ≤ c) (h2 : c ≤ 22) :
    readCell (reset_sheet_structure m1 m2 s) 4 c = expected_headers.getD (c - 1) "" := by
  have hc : c - 1 < expected_headers.length := by
    have hlen : expected_headers.length = 22 := rfl
    omega
  rw [reset_sheet_structure_def, readCell_resizeSheet, if_pos (by omega), readCell_writeRange]
  have hw : rowsMaxWidth [expected_headers] = 22 := rfl
  have hL : ([expected_headers] : List (List String)).length = 1 := rfl
  rw [if_pos (by rw [hw, hL]; omega), if_pos (by omega)]
  have h0 : (4 : Nat) - 4 = 0 := rfl
  rw [h0]
  rw [show [expected_headers].getD 0 [] = expected_headers from rfl]
  rw [List.getD_eq_getElem _ _ hc, List.getD_eq_getElem _ _ hc]

theorem reset_readCell_data (m1 m2 : String) (s : Sheet) (r c : Nat) (h : 5 ≤ r) :
    readCell (reset_sheet_structure m1 m2 s) r c = "" := by
  rw [reset_sheet_structure_def, readCell_resizeSheet]
  split_ifs with hg
  · apply readCell_writeRange_past _ _ _ _ _ (by simp; omega)
    apply readCell_writeRange_past _ _ _ _ _ (by simp; omega)
    apply readCell_writeRange_past _ _ _ _ _ (by simp; omega)
    exact readCell_clearSheet _ _ _
  · rfl

/-- C2: the existing-sheet branch leaves a sheet with the canonical header
row untouched and resets any other sheet; and the reset produces a sheet of
exactly 1000 rows and 22 columns whose header row (row 4) is the canonical
list and whose data region (rows 5 and beyond) is entirely blank, before any
data write. -/
theorem C2_header_repair (m1 m2 : String) (s : Sheet) :
    (get_or_create_existing m1 m2 s
        = if rowValues s 4 = expected_headers then s else reset_sheet_structure m1 m2 s) ∧
      (reset_sheet_structure m1 m2 s).numRows = 1000 ∧
      (reset_sheet_structure m1 m2 s).numCols = 22 ∧
      rowValues (reset_sheet_structure m1 m2 s) 4 = expected_headers ∧
      dataRowCount (reset_sheet_structure m1 m2 s) = 0 := by
  refine ⟨?_, rfl, rfl, ?_, ?_⟩
  · unfold get_or_create_existing headersNeedReset
    by_cases h : rowValues s 4 = expected_headers
    · rw [if_pos h]
      simp [h]
    · rw [if_neg h]
      simp [h]
  · have hcols : (reset_sheet_structure m1 m2 s).numCols = 22 := rfl
    unfold rowValues
    rw [hcols]
    rw [List.map_congr_left (fun j hj =>
      reset_readCell_header m1 m2 s (j + 1) (by omega)
        (by have := List.mem_range.1 hj; omega) : ∀ j ∈ List.range 22,
          readCell (reset_sheet_structure m1 m2 s) 4 (j + 1)
            = (fun j => expected_headers.getD j "") j)]
    decide
  · unfold dataRowCount
    rw [show (reset_sheet_structure m1 m2 s).numRows = 1000 from rfl]
    rw [List.filter_eq_nil_iff.2 (fun i _ => by
      rw [rowValues_blank _ _ (fun c => reset_readCell_data m1 m2 s (5 + i) c (by omega))]
      simp)]
    rfl

/- Claim C3: the table write. -/

theorem readCell_deleteRows (s : Sheet) (a b r c : Nat) :
    readCell (deleteRows s a b) r c
      = if 1 ≤ r ∧ r ≤ s.numRows - (b - a + 1) ∧ 1 ≤ c ∧ c ≤ s.numCols then
          (if r < a then readCell s r c else readCell s (r + (b - a + 1)) c)
        else "" := rfl

theorem readCell_beyond (s : Sheet) (r c : Nat) (h : s.numRows < r) :
    readCell s r c = "" := by
  unfold readCell
  rw [if_neg (by omega)]

theorem trimRow_eq_nil_iff (row : List String) : trimRow row = [] ↔ ∀ x ∈ row, x = "" := by
  unfold trimRow
  rw [List.reverse_eq_nil_iff, List.dropWhile_eq_nil_iff]
  constructor
  · intro h x hx
    have := h x (List.mem_reverse.2 hx)
    simpa using this
  · intro h x hx
    simp [h x (List.mem_reverse.1 hx)]

theorem blank_of_rowValues_nil (s : Sheet) (r : Nat) (h : rowValues s r = []) :
    ∀ c, readCell s r c = "" := by
  intro c
  by_cases hc : 1 ≤ c ∧ c ≤ s.numCols
  · have hmem : readCell s r c ∈ (List.range s.numCols).map (fun j => readCell s r (j + 1)) := by
      refine List.mem_map.2 ⟨c - 1, List.mem_range.2 (by omega), ?_⟩
      congr 1
      omega
    exact (trimRow_eq_nil_iff _).1 h _ hmem
  · unfold readCell
    rw [if_neg (by omega)]

theorem readCell_resizeSheet_blank (s : Sheet) (a b r : Nat)
    (h : ∀ c, readCell s r c = "") : ∀ c, readCell (resizeSheet s a b) r c = "" := by
  intro c
  rw [readCell_resizeSheet]
  split_ifs with hg
  · exact h c
  · rfl

theorem rowsMaxWidth_ge (vals : List (List String)) (row : List String) (h : row ∈ vals) :
    row.length ≤ rowsMaxWidth vals := by
  induction vals with
  | nil => cases h
  | cons v t ih =>
    rcases List.mem_cons.1 h with rfl | hm
    · simp [rowsMaxWidth]
    · calc row.length ≤ rowsMaxWidth t := ih hm
      _ ≤ rowsMaxWidth (v :: t) := by simp [rowsMaxWidth]

theorem getD_map_range : ∀ (w : List String) (C : Nat), w.length ≤ C →
    (List.range C).map (fun j => w.getD j "") = w ++ List.replicate (C - w.length) "" := by
  intro w
  induction w with
  | nil =>
    intro C _
    simp [List.map_const']
  | cons a t ih =>
    intro C hC
    obtain ⟨C', rfl⟩ : ∃ C', C = C' + 1 := ⟨C - 1, by simp at hC; omega⟩
    rw [List.range_succ_eq_map, List.map_cons, List.map_map]
    have : ((fun j => (a :: t).getD j "") ∘ (· + 1)) = fun j => t.getD j "" := rfl
    rw [this, ih C' (by simpa using hC)]
    simp

theorem dropWhile_replicate_blank (k : Nat) (X : List String) :
    List.dropWhile (fun c => c == "") (List.replicate k "" ++ X)
      = List.dropWhile (fun c => c == "") X := by
  induction k with
  | zero => rfl
  | succ k ih =>
    rw [List.replicate_succ, List.cons_append, List.dropWhile_cons]
    simp only [beq_self_eq_true, if_true]
    exact ih

theorem trimRow_append_replicate (w : List String) (k : Nat) :
    trimRow (w ++ List.replicate k "") = trimRow w := by
  unfold trimRow
  rw [List.reverse_append, List.reverse_replicate, dropWhile_replicate_blank]

theorem update_write_count (t : Sheet) (wars : List (List String))
    (hA : t.numRows ≤ 4 + wars.length)
    (hB : ∀ c, readCell t 5 c = "")
    (hC : ∀ r c, 6 ≤ r → readCell t r c = "")
    (hne : wars ≠ [])
    (hw : ∀ row ∈ wars, row.length = 22 ∧ trimRow row ≠ []) :
    dataRowCount (writeRange t 6 wars) = wars.length ∧
      (writeRange t 6 wars).numRows = 5 + wars.length := by
  have hn1 : 1 ≤ wars.length := List.length_pos.2 hne
  have hNR : (writeRange t 6 wars).numRows = 5 + wars.length := by
    show max t.numRows (6 - 1 + wars.length) = 5 + wars.length
    omega
  have hcols' : (writeRange t 6 wars).numCols = max t.numCols (rowsMaxWidth wars) := rfl
  refine ⟨?_, hNR⟩
  have hrow5 : rowValues (writeRange t 6 wars) 5 = [] := by
    apply rowValues_blank
    intro c
    rw [readCell_writeRange]
    split_ifs with hg h6
    · omega
    · exact hB c
    · rfl
  have hrowi : ∀ i, 1 ≤ i → i ≤ wars.length →
      rowValues (writeRange t 6 wars) (5 + i) = trimRow (wars.getD (i - 1) []) := by
    intro i hi1 hi2
    have hrowmem : wars.getD (i - 1) [] ∈ wars := by
      rw [List.getD_eq_getElem _ _ (by omega)]
      exact List.getElem_mem _
    obtain ⟨hlen, _⟩ := hw _ hrowmem
    unfold rowValues
    have hwidth : (wars.getD (i - 1) []).length ≤ (writeRange t 6 wars).numCols := by
      rw [hcols']
      exact le_trans (rowsMaxWidth_ge wars _ hrowmem) (le_max_right _ _)
    rw [List.map_congr_left (g := fun j => (wars.getD (i - 1) []).getD j "") ?hcell]
    · rw [getD_map_range _ _ hwidth, trimRow_append_replicate]
    case hcell =>
      intro j hj
      have hj' := List.mem_range.1 hj
      rw [readCell_writeRange, if_pos (by omega), if_pos (by omega)]
      rw [hC (5 + i) (j + 1) (by omega)]
      have e1 : 5 + i - 6 = i - 1 := by omega
      rw [e1]
      rfl
  unfold dataRowCount
  rw [hNR]
  have h54 : 5 + wars.length - 4 = wars.length + 1 := by omega
  rw [h54, List.range_succ_eq_map]
  rw [List.filter_cons_of_neg (by
    rw [show (5 + 0) = 5 from rfl, hrow5]
    simp)]
  rw [List.filter_map]
  rw [List.filter_eq_self.2 (fun a ha => by
    have hma := List.mem_range.1 ha
    have hmem : wars.getD a [] ∈ wars := by
      rw [List.getD_eq_getElem _ _ (by omega)]
      exact List.getElem_mem _
    have hne' : trimRow (wars.getD a []) ≠ [] := (hw _ hmem).2
    simp only [Function.comp]
    rw [show (5 + Nat.succ a) = 5 + (a + 1) from rfl,
      hrowi (a + 1) (by omega) (by omega), show a + 1 - 1 = a from rfl]
    simp only [Bool.not_eq_true']
    rw [List.isEmpty_eq_false]
    exact hne')]
  simp

theorem readCell_delete_resize_row5 (s2 : Sheet) (n : Nat)
    (hb2 : ∀ c, readCell s2 5 c = "") :
    ∀ c, readCell (resizeSheet (deleteRows s2 6 s2.numRows) (4 + n) 22) 5 c = "" := by
  intro c
  rw [readCell_resizeSheet]
  split_ifs with hg
  · rw [readCell_deleteRows]
    split_ifs with hg2 h5a
    · exact hb2 c
    · omega
    · rfl
  · rfl

theorem readCell_delete_resize_data (s2 : Sheet) (n : Nat) (h3 : 5 < s2.numRows) :
    ∀ r c, 6 ≤ r → readCell (resizeSheet (deleteRows s2 6 s2.numRows) (4 + n) 22) r c = "" := by
  intro r c hr
  rw [readCell_resizeSheet]
  split_ifs with hg
  · rw [readCell_deleteRows, if_neg (by omega)]
  · rfl

/-- C3 counterexample to the claim's empty-list case: on a table holding one
stale data row (row 6), an update with zero input records performs no write
at all, so the data-row count stays 1 instead of the input count 0. -/
theorem C3_counterexample :
    update_sheet ⟨6, 22, fun r c => if r = 6 ∧ c = 1 then "x" else ""⟩ [] =
        ⟨6, 22, fun r c => if r = 6 ∧ c = 1 then "x" else ""⟩ ∧
      dataRowCount ⟨6, 22, fun r c => if r = 6 ∧ c = 1 then "x" else ""⟩ = 1 ∧
      ([] : List (List String)).length = 0 :=
  ⟨rfl, by decide, rfl⟩

/-- C3 amended: for every NON-empty prepared row list (each row 22 cells
wide with some non-blank cell) written to a sheet whose row 5 is blank (as
the provisioner leaves it: the script writes data from row 6 on), the number
of data rows after the write equals the number of input records, and the
row capacity is exactly `5 + records` — at least the required
`4 + records`, never shrunk below it. With an empty input list the sheet is
left untouched (see the counterexample). -/
theorem C3_table_write (s : Sheet) (wars : List (List String)) (hne : wars ≠ [])
    (h5 : rowValues s 5 = [])
    (hw : ∀ row ∈ wars, row.length = 22 ∧ trimRow row ≠ []) :
    dataRowCount (update_sheet s wars) = wars.length ∧
      (update_sheet s wars).numRows = 5 + wars.length ∧
      4 + wars.length ≤ (update_sheet s wars).numRows := by
  have hn1 : 1 ≤ wars.length := List.length_pos.2 hne
  have hb : ∀ c, readCell s 5 c = "" := blank_of_rowValues_nil s 5 h5
  have hbR : ∀ a b c, readCell (resizeSheet s a b) 5 c = "" :=
    fun a b => readCell_resizeSheet_blank s a b 5 hb
  have hbRR : ∀ a b a' b' c, readCell (resizeSheet (resizeSheet s a b) a' b') 5 c = "" :=
    fun a b a' b' => readCell_resizeSheet_blank _ a' b' 5 (hbR a b)
  have key : dataRowCount (update_sheet s wars) = wars.length ∧
      (update_sheet s wars).numRows = 5 + wars.length := by
    simp only [update_sheet]
    rw [if_neg (by simp [List.isEmpty_iff, hne])]
    split_ifs with h1 h2 h3 h3 h2 h3 h3
    · exact update_write_count _ wars (Nat.le_of_eq rfl)
        (readCell_delete_resize_row5 _ _ (hbRR _ _ _ _))
        (readCell_delete_resize_data _ _ h3) hne hw
    · exact update_write_count _ wars (by omega)
        (hbRR _ _ _ _)
        (fun r c hr => readCell_beyond _ r c (by omega)) hne hw
    · exact update_write_count _ wars (Nat.le_of_eq rfl)
        (readCell_delete_resize_row5 _ _ (hbR _ _))
        (readCell_delete_resize_data _ _ h3) hne hw
    · exact update_write_count _ wars (by omega)
        (hbR _ _)
        (fun r c hr => readCell_beyond _ r c (by omega)) hne hw
    · exact update_write_count _ wars (Nat.le_of_eq rfl)
        (readCell_delete_resize_row5 _ _ (hbR _ _))
        (readCell_delete_resize_data _ _ h3) hne hw
    · exact update_write_count _ wars (by omega)
        (hbR _ _)
        (fun r c hr => readCell_beyond _ r c (by omega)) hne hw
    · exact update_write_count _ wars (Nat.le_of_eq rfl)
        (readCell_delete_resize_row5 _ _ hb)
        (readCell_delete_resize_data _ _ h3) hne hw
    · exact update_write_count _ wars (by omega)
        hb
        (fun r c hr => readCell_beyond _ r c (by omega)) hne hw
  exact ⟨key.1, key.2, by rw [key.2]; omega⟩

/-- C3 witnessed: writing two 22-cell rows into a freshly created blank
1000-row sheet leaves exactly 2 data rows and a 7-row grid. -/
theorem C3_table_write_witness :
    dataRowCount (update_sheet ⟨1000, 22, fun _ _ => ""⟩
        ["w1" :: List.replicate 21 "", "w2" :: List.replicate 21 ""]) = 2 ∧
      (update_sheet ⟨1000, 22, fun _ _ => ""⟩
        ["w1" :: List.replicate 21 "", "w2" :: List.replicate 21 ""]).numRows = 5 + 2 ∧
      4 + 2 ≤ (update_sheet ⟨1000, 22, fun _ _ => ""⟩
        ["w1" :: List.replicate 21 "", "w2" :: List.replicate 21 ""]).numRows :=
  C3_table_write ⟨1000, 22, fun _ _ => ""⟩
    ["w1" :: List.replicate 21 "", "w2" :: List.replicate 21 ""]
    (by decide) (by decide) (by decide)
